import Mathlib

/-!
# Verification of the iridium VM decode/dispatch core

Shallow embedding of `src/opcode.rs` and `src/vm.rs`:

* `Opcode`, `Opcode.arity`, `Opcode.fromU8` embed `opcode.rs`.
* `VM`, the byte readers, `VM.decode_instruction`, `VM.execute_instruction`,
  `VM.run_once` and `VM.run` embed `vm.rs`.

Machine integers become `Nat`/`Int`: a program is a `List Nat` whose entries
denote `u8` values (so are `< 256` for any program producible in the source
language, where the buffer is a `Vec<u8>`); reads never overflow because a
16-bit read of two bytes `hi, lo < 256` yields `hi * 256 + lo < 65536`.
Rust `Result<_, String>` error messages are embedded as the inductive
`DecodeError`, one constructor per distinct format string, carrying exactly
the data interpolated into that string.  A Rust `panic!` (including the
built-in bounds-check panic of an out-of-range array index) aborts the
program, so panicking functions return `Except (PanicReason × VM)`, the
error carrying the panic reason together with the machine state at the
moment of the panic.  `println!` calls are side effects with no influence
on machine state and are dropped.
-/

namespace Iridium

set_option maxHeartbeats 1600000 in
/-- The opcode enumeration of `opcode.rs` (`pub enum Opcode`).  Discriminants
are assigned by declaration order starting at 0 (`NOP = 0` … `STOP = 91`,
`MAX = 92`) except `INVALID = 255`. -/
inductive Opcode where
  | NOP
  | MOVE
  | LOADL
  | LOADI
  | LOADI_0
  | LOADI_1
  | LOADI_2
  | LOADI_3
  | LOADSYM
  | LOADNIL
  | LOADSELF
  | LOADT
  | LOADF
  | GETGV
  | SETGV
  | GETSV
  | SETSV
  | GETIV
  | SETIV
  | GETCV
  | SETCV
  | GETCONST
  | SETCONST
  | GETMCNST
  | SETMCNST
  | GETUPVAR
  | SETUPVAR
  | JMP
  | JMPIF
  | JMPNOT
  | ONERR
  | EXCEPT
  | RESCUE
  | POPERR
  | RAISE
  | EPUSH
  | EPOP
  | SENDV
  | SENDVB
  | SEND
  | SENDB
  | CALL
  | SUPER
  | ARGARY
  | ENTER
  | KARG
  | KARG2
  | RETURN
  | RETURN_BLK
  | BREAK
  | BLKPUSH
  | ADD
  | ADDI
  | SUB
  | SUBI
  | MUL
  | DIV
  | EQ
  | LT
  | LE
  | GT
  | GE
  | ARRAY
  | ARRAY2
  | ARYCAT
  | ARYPUSH
  | AREF
  | ASET
  | APOST
  | STRING
  | STRCAT
  | HASH
  | HASHADD
  | LAMBDA
  | BLOCK
  | METHOD
  | RANGE_INC
  | RANGE_EXC
  | OCLASS
  | CLASS
  | MODULE
  | EXEC
  | DEF
  | ALIAS
  | UNDEF
  | SCLASS
  | TCLASS
  | ERR
  | EXT1
  | EXT2
  | EXT3
  | STOP
  | MAX
  | INVALID
deriving DecidableEq

set_option maxHeartbeats 1600000 in
/-- The real opcodes in declaration (= discriminant) order: index `i` holds
the opcode with discriminant `i`, for `i < 92` (`Opcode::MAX as u8 = 92`;
`MAX` itself and `INVALID` are the two sentinels and are not listed). -/
def opcodeTable : List Opcode :=
  [.NOP, .MOVE, .LOADL, .LOADI, .LOADI_0, .LOADI_1, .LOADI_2, .LOADI_3,
   .LOADSYM, .LOADNIL, .LOADSELF, .LOADT, .LOADF, .GETGV, .SETGV, .GETSV,
   .SETSV, .GETIV, .SETIV, .GETCV, .SETCV, .GETCONST, .SETCONST, .GETMCNST,
   .SETMCNST, .GETUPVAR, .SETUPVAR, .JMP, .JMPIF, .JMPNOT, .ONERR, .EXCEPT,
   .RESCUE, .POPERR, .RAISE, .EPUSH, .EPOP, .SENDV, .SENDVB, .SEND, .SENDB,
   .CALL, .SUPER, .ARGARY, .ENTER, .KARG, .KARG2, .RETURN, .RETURN_BLK,
   .BREAK, .BLKPUSH, .ADD, .ADDI, .SUB, .SUBI, .MUL, .DIV, .EQ, .LT, .LE,
   .GT, .GE, .ARRAY, .ARRAY2, .ARYCAT, .ARYPUSH, .AREF, .ASET, .APOST,
   .STRING, .STRCAT, .HASH, .HASHADD, .LAMBDA, .BLOCK, .METHOD, .RANGE_INC,
   .RANGE_EXC, .OCLASS, .CLASS, .MODULE, .EXEC, .DEF, .ALIAS, .UNDEF,
   .SCLASS, .TCLASS, .ERR, .EXT1, .EXT2, .EXT3, .STOP]

/-- `impl From<u8> for Opcode` (`opcode.rs`): a byte `v < Opcode::MAX as u8`
(which is 92) is reinterpreted as the opcode with discriminant `v`
(embedded as a lookup in the declaration-order table, which is exactly what
the `transmute` computes); every other byte yields `INVALID`.
`List.getD` returns the default `INVALID` precisely when `v ≥ 92`. -/
def Opcode.fromU8 (v : Nat) : Opcode :=
  List.getD opcodeTable v .INVALID

/-- `pub struct OpcodeArity` (`opcode.rs`): argument count and per-argument
width/signedness.  `Default` zero-fills every field. -/
structure OpcodeArity where
  argc : Nat
  arg1_size : Nat
  arg1_signed : Bool
  arg2_size : Nat
  arg2_signed : Bool
  arg3_size : Nat
  arg3_signed : Bool
deriving DecidableEq

/-- `OpcodeArity::default()`: all fields zero / false. -/
def OpcodeArity.default : OpcodeArity :=
  ⟨0, 0, false, 0, false, 0, false⟩

/-- `Opcode::arity` (`opcode.rs`): the argument shape of each opcode,
mirroring the source `match` arm by arm (unspecified fields come from
`OpcodeArity::default()`). -/
def Opcode.arity : Opcode → OpcodeArity
  -- No args
  | .NOP | .EXT1 | .EXT2 | .EXT3 | .STOP | .MAX | .INVALID =>
      { OpcodeArity.default with argc := 0 }
  -- u8
  | .LOADI_0 | .LOADI_1 | .LOADI_2 | .LOADI_3 | .LOADNIL | .LOADSELF
  | .LOADT | .LOADF | .EXCEPT | .POPERR | .RAISE | .EPUSH | .EPOP
  | .CALL | .RETURN | .RETURN_BLK | .BREAK | .ARYCAT | .ARYPUSH | .STRCAT
  | .RANGE_INC | .RANGE_EXC | .OCLASS | .ALIAS | .SCLASS | .TCLASS | .ERR =>
      { OpcodeArity.default with argc := 1, arg1_size := 8 }
  -- u16
  | .JMP =>
      { OpcodeArity.default with argc := 1, arg1_size := 16 }
  -- i16
  | .ONERR =>
      { OpcodeArity.default with argc := 1, arg1_size := 16, arg1_signed := true }
  -- u24
  | .ENTER =>
      { OpcodeArity.default with argc := 1, arg1_size := 24 }
  -- u8, u8
  | .MOVE | .LOADL | .LOADSYM | .GETGV | .SETGV | .GETSV | .SETSV
  | .GETIV | .SETIV | .GETCV | .SETCV | .GETCONST | .SETCONST
  | .GETMCNST | .SETMCNST | .RESCUE | .SENDV | .SENDVB | .SUPER
  | .KARG | .KARG2 | .ADD | .SUB | .SUBI | .MUL | .DIV | .EQ | .LT
  | .LE | .GT | .GE | .ARRAY | .ARRAY2 | .AREF | .ASET | .APOST
  | .STRING | .HASH | .HASHADD | .LAMBDA | .BLOCK | .METHOD | .CLASS
  | .MODULE | .EXEC | .DEF | .UNDEF =>
      { OpcodeArity.default with argc := 2, arg1_size := 8, arg2_size := 8 }
  -- u8, i8
  | .LOADI =>
      { OpcodeArity.default with
          argc := 2, arg1_size := 8, arg2_size := 8, arg2_signed := true }
  -- u8, u16
  | .JMPIF | .JMPNOT | .ARGARY | .BLKPUSH =>
      { OpcodeArity.default with argc := 2, arg1_size := 8, arg2_size := 16 }
  -- u8, u8, u8
  | .GETUPVAR | .SETUPVAR | .SEND | .SENDB | .ADDI =>
      { OpcodeArity.default with
          argc := 3, arg1_size := 8, arg2_size := 8, arg3_size := 8 }

/-- `pub type U24 = (u8, u8, u8)` (`opcode.rs`). -/
def U24 := Nat × Nat × Nat
deriving DecidableEq

/-- `pub enum OpcodeArgs` (`opcode.rs`): argument values of an instruction.
Unsigned machine integers become `Nat`, signed ones `Int`. -/
inductive OpcodeArgs where
  -- Zero arguments
  | None
  -- One argument
  | U8 (a : Nat)
  | U16 (a : Nat)
  | I16 (a : Int)
  | U24 (a : U24)
  -- Two arguments
  | U8U8 (a b : Nat)
  | U8I8 (a : Nat) (b : Int)
  | U8U16 (a b : Nat)
  | U8I16 (a : Nat) (b : Int)
  | U16U16 (a b : Nat)
  -- Three arguments
  | U8U8U8 (a b c : Nat)
deriving DecidableEq

/-- `pub struct Instruction` (`vm.rs`): an opcode plus its argument values. -/
structure Instruction where
  opcode : Opcode
  args : OpcodeArgs
deriving DecidableEq

/-- The distinct decode-failure messages of `vm.rs`, one constructor per
format string, carrying the interpolated data.

* `truncated op argc` — `decode_error`: "Could to decode arguments for
  opcode {op} - {argc} argument(s) needed, but bytecode reached EOF."
* `arityUndetermined op` — "Could not decode arguments for opcode {op} -
  arity could not be determined."
* `endOfProgram` — "Could not decode the next instruction. End of program
  has been reached." -/
inductive DecodeError where
  | truncated (opcode : Opcode) (argc : Nat)
  | arityUndetermined (opcode : Opcode)
  | endOfProgram
deriving DecidableEq

/-- The distinct panic messages reachable in `vm.rs`.

* `unrecognizedArgs args op` — `execute_instruction`: "Unrecognized
  arguments {args} for opcode {op} found. Terminating."
* `unrecognizedOpcode op` — `execute_instruction`: "Unrecognized opcode
  {op} found. Terminating."
* `indexOutOfBounds len idx` — the Rust built-in bounds-check panic raised
  by `self.registers[a as usize] = …` when `idx ≥ len`: "index out of
  bounds: the len is {len} but the index is {idx}". -/
inductive PanicReason where
  | unrecognizedArgs (args : OpcodeArgs) (opcode : Opcode)
  | unrecognizedOpcode (opcode : Opcode)
  | indexOutOfBounds (len idx : Nat)
deriving DecidableEq

/-- Equality of `Except` results is decidable when both component types
have decidable equality (used to evaluate concrete machine runs). -/
instance {e : Type} {a : Type} [DecidableEq e] [DecidableEq a] :
    DecidableEq (Except e a) := fun x y =>
  match x, y with
  | .ok v, .ok w =>
      if h : v = w then isTrue (by rw [h]) else isFalse (by simp [h])
  | .error v, .error w =>
      if h : v = w then isTrue (by rw [h]) else isFalse (by simp [h])
  | .ok _, .error _ => isFalse (by simp)
  | .error _, .ok _ => isFalse (by simp)

/-- `pub struct VM` (`vm.rs`).  The register file is a list of 32 signed
32-bit integers (`Int` values; every value ever stored is the
sign-extension of a 16-bit immediate, so 32-bit wraparound never occurs);
`last_error` holds the embedded form of the `Option<String>` field. -/
structure VM where
  registers : List Int
  pc : Nat
  program : List Nat
  halted : Bool
  last_error : Option DecodeError
deriving DecidableEq

namespace VM

/-- `VM::new` (`vm.rs`): 32 zeroed registers, `pc = 0`, empty program,
not halted, no error. -/
def new : VM :=
  { registers := List.replicate 32 0
    pc := 0
    program := []
    halted := false
    last_error := none }

/-- `VM::eof` via `eof_with_offset(0)` (`vm.rs`): the program counter has
reached the end of the program. -/
def eof (vm : VM) : Bool :=
  decide (vm.pc ≥ vm.program.length)

/-- `VM::eof_with_offset` (`vm.rs`) at a non-negative offset (the decoder
only ever calls it with offsets 0, 1 and 2; the negative branch is used
solely by the source test suite). -/
def eof_with_offset (vm : VM) (offset : Nat) : Bool :=
  decide (vm.pc + offset ≥ vm.program.length)

/-- `VM::next_8_bits` (`vm.rs`): read one byte and advance `pc`, or `none`
at EOF (cursor untouched). -/
def next_8_bits (vm : VM) : Option Nat × VM :=
  if vm.eof then (none, vm)
  else (some (vm.program.getD vm.pc 0), { vm with pc := vm.pc + 1 })

/-- `VM::next_16_bits` (`vm.rs`): read two bytes big-endian
(`(hi << 8) | lo` on `u8` values is `hi * 256 + lo`) and advance `pc` by 2,
or `none` if fewer than two bytes remain (cursor untouched). -/
def next_16_bits (vm : VM) : Option Nat × VM :=
  if vm.eof_with_offset 1 then (none, vm)
  else (some (vm.program.getD vm.pc 0 * 256 + vm.program.getD (vm.pc + 1) 0),
        { vm with pc := vm.pc + 2 })

/-- `VM::next_24_bits` (`vm.rs`): read three raw bytes as a `U24` triple and
advance `pc` by 3, or `none` if fewer than three bytes remain. -/
def next_24_bits (vm : VM) : Option U24 × VM :=
  if vm.eof_with_offset 2 then (none, vm)
  else (some (vm.program.getD vm.pc 0, vm.program.getD (vm.pc + 1) 0,
              vm.program.getD (vm.pc + 2) 0),
        { vm with pc := vm.pc + 3 })

/-- `VM::decode_opcode` (`vm.rs`): read one byte and convert it with
`Opcode::from`. -/
def decode_opcode (vm : VM) : Option Opcode × VM :=
  match vm.next_8_bits with
  | (some b, vm') => (some (Opcode.fromU8 b), vm')
  | (none, vm') => (none, vm')

end VM

/-- The extension test of the first `match` in `VM::decode_instruction`
(`vm.rs`): is this opcode `EXT1`, `EXT2` or `EXT3`? -/
def Opcode.is_ext (op : Opcode) : Bool :=
  op = .EXT1 || op = .EXT2 || op = .EXT3

/-- The `match op_ext` block of `VM::decode_instruction` (`vm.rs`):
a remembered `EXT1`/`EXT2`/`EXT3` widens the first / second / both
argument(s) from 8 to 16 bits; anything else leaves the arity alone. -/
def apply_ext (op_ext : Option Opcode) (arity : OpcodeArity) : OpcodeArity :=
  match op_ext with
  | some .EXT1 =>
      if arity.arg1_size = 8 then { arity with arg1_size := 16 } else arity
  | some .EXT2 =>
      if arity.arg2_size = 8 then { arity with arg2_size := 16 } else arity
  | some .EXT3 =>
      let arity :=
        if arity.arg1_size = 8 then { arity with arg1_size := 16 } else arity
      if arity.arg2_size = 8 then { arity with arg2_size := 16 } else arity
  | _ => arity

/-- Reinterpretation `u16 → i16` (Rust `arg as i16`): values below `2^15`
are themselves, the rest wrap to negatives. -/
def toI16 (n : Nat) : Int :=
  if n < 32768 then (n : Int) else (n : Int) - 65536

/-- Reinterpretation `u8 → i8` (Rust `arg as i8`). -/
def toI8 (n : Nat) : Int :=
  if n < 128 then (n : Int) else (n : Int) - 256

namespace VM

/-- `VM::decode_error` (`vm.rs`): the decode failure reporting the opcode
and the argument count of its (possibly widened) arity. -/
def decode_error (_vm : VM) (opcode : Opcode) (arity : OpcodeArity) :
    Except DecodeError Instruction :=
  .error (.truncated opcode arity.argc)

/-- The `let args = match arity { … }` block of `VM::decode_instruction`
(`vm.rs`), extracted as a function: read the argument values dictated by
the resolved arity, arm by arm as in the source; an arity matched by no arm
fails with the "arity could not be determined" error (the source's
catch-all), and a short read fails with `decode_error`.  Rust evaluates
every element of a tuple `(self.next_…, self.next_…)` before matching it,
so all reads of an arm run (and advance the cursor) even if an earlier one
failed. -/
def decode_args (vm : VM) (opcode : Opcode) (arity : OpcodeArity) :
    Except DecodeError Instruction × VM :=
  match arity with
  -- No args
  | ⟨0, _, _, _, _, _, _⟩ =>
      (.ok ⟨opcode, .None⟩, vm)
  -- Single arg
  | ⟨1, 8, false, _, _, _, _⟩ =>
      match vm.next_8_bits with
      | (some arg1, vm') => (.ok ⟨opcode, .U8 arg1⟩, vm')
      | (none, vm') => (vm'.decode_error opcode arity, vm')
  | ⟨1, 16, false, _, _, _, _⟩ =>
      match vm.next_16_bits with
      | (some arg1, vm') => (.ok ⟨opcode, .U16 arg1⟩, vm')
      | (none, vm') => (vm'.decode_error opcode arity, vm')
  | ⟨1, 16, true, _, _, _, _⟩ =>
      match vm.next_16_bits with
      | (some arg1, vm') => (.ok ⟨opcode, .I16 (toI16 arg1)⟩, vm')
      | (none, vm') => (vm'.decode_error opcode arity, vm')
  | ⟨1, 24, false, _, _, _, _⟩ =>
      match vm.next_24_bits with
      | (some arg1, vm') => (.ok ⟨opcode, .U24 arg1⟩, vm')
      | (none, vm') => (vm'.decode_error opcode arity, vm')
  -- Two args
  | ⟨2, 8, false, 8, false, _, _⟩ =>
      let (a1, vm1) := vm.next_8_bits
      let (a2, vm2) := vm1.next_8_bits
      match a1, a2 with
      | some arg1, some arg2 => (.ok ⟨opcode, .U8U8 arg1 arg2⟩, vm2)
      | _, _ => (vm2.decode_error opcode arity, vm2)
  | ⟨2, 8, false, 8, true, _, _⟩ =>
      let (a1, vm1) := vm.next_8_bits
      let (a2, vm2) := vm1.next_8_bits
      match a1, a2 with
      | some arg1, some arg2 => (.ok ⟨opcode, .U8I8 arg1 (toI8 arg2)⟩, vm2)
      | _, _ => (vm2.decode_error opcode arity, vm2)
  | ⟨2, 8, false, 16, false, _, _⟩ =>
      let (a1, vm1) := vm.next_8_bits
      let (a2, vm2) := vm1.next_16_bits
      match a1, a2 with
      | some arg1, some arg2 => (.ok ⟨opcode, .U8U16 arg1 arg2⟩, vm2)
      | _, _ => (vm2.decode_error opcode arity, vm2)
  | ⟨2, 8, false, 16, true, _, _⟩ =>
      let (a1, vm1) := vm.next_8_bits
      let (a2, vm2) := vm1.next_16_bits
      match a1, a2 with
      | some arg1, some arg2 => (.ok ⟨opcode, .U8I16 arg1 (toI16 arg2)⟩, vm2)
      | _, _ => (vm2.decode_error opcode arity, vm2)
  | ⟨2, 16, false, 16, false, _, _⟩ =>
      let (a1, vm1) := vm.next_16_bits
      let (a2, vm2) := vm1.next_16_bits
      match a1, a2 with
      | some arg1, some arg2 => (.ok ⟨opcode, .U16U16 arg1 arg2⟩, vm2)
      | _, _ => (vm2.decode_error opcode arity, vm2)
  -- Three args
  | ⟨3, 8, false, 8, false, 8, false⟩ =>
      let (a1, vm1) := vm.next_8_bits
      let (a2, vm2) := vm1.next_8_bits
      let (a3, vm3) := vm2.next_8_bits
      match a1, a2, a3 with
      | some arg1, some arg2, some arg3 =>
          (.ok ⟨opcode, .U8U8U8 arg1 arg2 arg3⟩, vm3)
      | _, _, _ => (vm3.decode_error opcode arity, vm3)
  -- Invalid args
  | _ => (.error (.arityUndetermined opcode), vm)

/-- The tail of `VM::decode_instruction` (`vm.rs`) after the extension
check: given the remembered extension modifier and the opcode actually
being decoded, resolve the arity, widen it, and read the arguments; a
missing opcode (EOF) is the "End of program has been reached." error. -/
def decode_with (op_ext : Option Opcode) (opcode : Option Opcode) (vm : VM) :
    Except DecodeError Instruction × VM :=
  match opcode with
  | some opcode => vm.decode_args opcode (apply_ext op_ext opcode.arity)
  | none => (.error .endOfProgram, vm)

/-- `VM::decode_instruction` (`vm.rs`): read an opcode; if it is an
extension modifier, remember it and read a second opcode (the one actually
decoded); then resolve/widen the arity and read the arguments. -/
def decode_instruction (vm : VM) : Except DecodeError Instruction × VM :=
  match vm.decode_opcode with
  | (some op, vm1) =>
      if op.is_ext then
        let (op1, vm2) := vm1.decode_opcode
        decode_with (some op) op1 vm2
      else
        decode_with none (some op) vm1
  | (none, vm1) => decode_with none none vm1

/-- `VM::execute_instruction` (`vm.rs`): decode one instruction; a decode
failure is recorded in `last_error` and returns `false`; otherwise dispatch
on the opcode (`NOP`/`MOVE` no-ops, `STOP` halts and returns `false`,
`LOADI` with `U8I16` args writes the sign-extended value into the indexed
register — the write panics with the bounds-check message when the index
is outside the register file — and any other opcode or argument variant
panics).  The `Except` error is a panic, carrying the machine state at the
moment of the panic. -/
def execute_instruction (vm : VM) : Except (PanicReason × VM) (VM × Bool) :=
  match vm.decode_instruction with
  | (.error reason, vm1) =>
      .ok ({ vm1 with last_error := some reason }, false)
  | (.ok instruction, vm1) =>
      match instruction.opcode with
      | .NOP => .ok (vm1, true)
      | .MOVE => .ok (vm1, true)
      | .STOP => .ok ({ vm1 with halted := true }, false)
      | .LOADI =>
          match instruction.args with
          | .U8I16 a b =>
              if a < vm1.registers.length then
                .ok ({ vm1 with registers := vm1.registers.set a b }, true)
              else
                .error (.indexOutOfBounds vm1.registers.length a, vm1)
          | _ =>
              .error (.unrecognizedArgs instruction.args instruction.opcode, vm1)
      | _ => .error (.unrecognizedOpcode instruction.opcode, vm1)

/-- `VM::run_once` (`vm.rs`): execute a single instruction,
unconditionally. -/
def run_once (vm : VM) : Except (PanicReason × VM) (VM × Bool) :=
  vm.execute_instruction

/-- Fuel-indexed unrolling of the `while` loop in `VM::run` (`vm.rs`):
`while last_error == None && !halted && !eof() && execute_instruction() {}`.
The conjunction short-circuits, so `execute_instruction` runs only when the
three state tests pass, and the loop continues only while it returns
`true`.  Each executed instruction consumes at least one byte, so
`program.length + 1` fuel always suffices (`run_fuel_adequate`). -/
def runFuel : Nat → VM → Except (PanicReason × VM) VM
  | 0, vm => .ok vm
  | fuel + 1, vm =>
      if vm.last_error = none && !vm.halted && !vm.eof then
        match vm.execute_instruction with
        | .error p => .error p
        | .ok (vm', continu) =>
            if continu then runFuel fuel vm' else .ok vm'
      else
        .ok vm

/-- `VM::run` (`vm.rs`): run the loop with enough fuel for any program. -/
def run (vm : VM) : Except (PanicReason × VM) VM :=
  runFuel (vm.program.length + 1) vm

end VM

/-! ## Analysis-side definitions

These definitions are stated from the spec's vocabulary, to be compared
with the source-derived functions above. -/

/-- The number of argument bytes a resolved arity demands: the widths (in
bits, each 0, 8, 16 or 24) of the first `argc` arguments, divided by 8.
Fields beyond `argc` are ignored, exactly as `decode_args` ignores them. -/
def bytes_needed (a : OpcodeArity) : Nat :=
  match a.argc with
  | 0 => 0
  | 1 => a.arg1_size / 8
  | 2 => a.arg1_size / 8 + a.arg2_size / 8
  | _ => a.arg1_size / 8 + a.arg2_size / 8 + a.arg3_size / 8

/-- Does this resolved (possibly extension-widened) arity have an
argument-value variant, i.e. is it matched by some non-catch-all arm of
the `match arity` block in `VM::decode_instruction`?  The patterns below
are exactly those of `decode_args`. -/
def args_variant_supported (a : OpcodeArity) : Bool :=
  match a with
  | ⟨0, _, _, _, _, _, _⟩ => true
  | ⟨1, 8, false, _, _, _, _⟩ => true
  | ⟨1, 16, false, _, _, _, _⟩ => true
  | ⟨1, 16, true, _, _, _, _⟩ => true
  | ⟨1, 24, false, _, _, _, _⟩ => true
  | ⟨2, 8, false, 8, false, _, _⟩ => true
  | ⟨2, 8, false, 8, true, _, _⟩ => true
  | ⟨2, 8, false, 16, false, _, _⟩ => true
  | ⟨2, 8, false, 16, true, _, _⟩ => true
  | ⟨2, 16, false, 16, false, _, _⟩ => true
  | ⟨3, 8, false, 8, false, 8, false⟩ => true
  | _ => false

namespace VM

/-- All machine state other than the cursor agrees between `vm` and `vm'`
(the decoder only ever moves the cursor). -/
def core_unchanged (vm vm' : VM) : Prop :=
  vm'.program = vm.program ∧ vm'.registers = vm.registers ∧
  vm'.halted = vm.halted ∧ vm'.last_error = vm.last_error

theorem core_unchanged_refl (vm : VM) : core_unchanged vm vm :=
  ⟨rfl, rfl, rfl, rfl⟩

theorem core_unchanged_trans {vm₁ vm₂ vm₃ : VM}
    (h₁ : core_unchanged vm₁ vm₂) (h₂ : core_unchanged vm₂ vm₃) :
    core_unchanged vm₁ vm₃ :=
  ⟨h₂.1.trans h₁.1, h₂.2.1.trans h₁.2.1, h₂.2.2.1.trans h₁.2.2.1,
   h₂.2.2.2.trans h₁.2.2.2⟩

/-! ### Byte-reader lemmas -/

theorem next_8_bits_of_lt {vm : VM} (h : vm.pc < vm.program.length) :
    vm.next_8_bits =
      (some (vm.program.getD vm.pc 0), { vm with pc := vm.pc + 1 }) := by
  unfold next_8_bits
  rw [if_neg (by simp [eof]; omega)]

theorem next_8_bits_of_ge {vm : VM} (h : vm.program.length ≤ vm.pc) :
    vm.next_8_bits = (none, vm) := by
  unfold next_8_bits
  rw [if_pos (by simp [eof]; omega)]

theorem next_16_bits_of_lt {vm : VM} (h : vm.pc + 1 < vm.program.length) :
    vm.next_16_bits =
      (some (vm.program.getD vm.pc 0 * 256 + vm.program.getD (vm.pc + 1) 0),
       { vm with pc := vm.pc + 2 }) := by
  unfold next_16_bits
  rw [if_neg (by simp [eof_with_offset]; omega)]

theorem next_16_bits_of_ge {vm : VM} (h : vm.program.length ≤ vm.pc + 1) :
    vm.next_16_bits = (none, vm) := by
  unfold next_16_bits
  rw [if_pos (by simp [eof_with_offset]; omega)]

theorem next_24_bits_of_lt {vm : VM} (h : vm.pc + 2 < vm.program.length) :
    vm.next_24_bits =
      (some (vm.program.getD vm.pc 0, vm.program.getD (vm.pc + 1) 0,
             vm.program.getD (vm.pc + 2) 0),
       { vm with pc := vm.pc + 3 }) := by
  unfold next_24_bits
  rw [if_neg (by simp [eof_with_offset]; omega)]

theorem next_24_bits_of_ge {vm : VM} (h : vm.program.length ≤ vm.pc + 2) :
    vm.next_24_bits = (none, vm) := by
  unfold next_24_bits
  rw [if_pos (by simp [eof_with_offset]; omega)]

/-- State evolution of `next_8_bits`: the cursor moves forward by at most
one byte, stays within the buffer, and nothing else changes. -/
theorem next_8_bits_state {vm : VM} {r : Option Nat} {vm' : VM}
    (h : vm.next_8_bits = (r, vm')) :
    core_unchanged vm vm' ∧ vm.pc ≤ vm'.pc ∧
      vm'.pc ≤ max vm.pc vm.program.length := by
  rcases Nat.lt_or_ge vm.pc vm.program.length with hlt | hge
  · rw [next_8_bits_of_lt hlt] at h
    injection h with h1 h2
    subst h2
    exact ⟨⟨rfl, rfl, rfl, rfl⟩, by simp, by simp; omega⟩
  · rw [next_8_bits_of_ge hge] at h
    injection h with h1 h2
    subst h2
    exact ⟨core_unchanged_refl vm, Nat.le_refl _, Nat.le_max_left _ _⟩

/-- State evolution of `next_16_bits`. -/
theorem next_16_bits_state {vm : VM} {r : Option Nat} {vm' : VM}
    (h : vm.next_16_bits = (r, vm')) :
    core_unchanged vm vm' ∧ vm.pc ≤ vm'.pc ∧
      vm'.pc ≤ max vm.pc vm.program.length := by
  rcases Nat.lt_or_ge (vm.pc + 1) vm.program.length with hlt | hge
  · rw [next_16_bits_of_lt hlt] at h
    injection h with h1 h2
    subst h2
    exact ⟨⟨rfl, rfl, rfl, rfl⟩, by simp, by simp; omega⟩
  · rw [next_16_bits_of_ge hge] at h
    injection h with h1 h2
    subst h2
    exact ⟨core_unchanged_refl vm, Nat.le_refl _, Nat.le_max_left _ _⟩

/-- State evolution of `next_24_bits`. -/
theorem next_24_bits_state {vm : VM} {r : Option U24} {vm' : VM}
    (h : vm.next_24_bits = (r, vm')) :
    core_unchanged vm vm' ∧ vm.pc ≤ vm'.pc ∧
      vm'.pc ≤ max vm.pc vm.program.length := by
  rcases Nat.lt_or_ge (vm.pc + 2) vm.program.length with hlt | hge
  · rw [next_24_bits_of_lt hlt] at h
    injection h with h1 h2
    subst h2
    exact ⟨⟨rfl, rfl, rfl, rfl⟩, by simp, by simp; omega⟩
  · rw [next_24_bits_of_ge hge] at h
    injection h with h1 h2
    subst h2
    exact ⟨core_unchanged_refl vm, Nat.le_refl _, Nat.le_max_left _ _⟩

/-- State evolution of `decode_opcode`. -/
theorem decode_opcode_state {vm : VM} {r : Option Opcode} {vm' : VM}
    (h : vm.decode_opcode = (r, vm')) :
    core_unchanged vm vm' ∧ vm.pc ≤ vm'.pc ∧
      vm'.pc ≤ max vm.pc vm.program.length := by
  unfold decode_opcode at h
  rcases h8 : vm.next_8_bits with ⟨rb, vmb⟩
  rw [h8] at h
  rcases rb with _ | b <;> simp at h <;>
    obtain ⟨-, rfl⟩ := h <;> exact next_8_bits_state h8

theorem decode_opcode_of_lt {vm : VM} (h : vm.pc < vm.program.length) :
    vm.decode_opcode =
      (some (Opcode.fromU8 (vm.program.getD vm.pc 0)),
       { vm with pc := vm.pc + 1 }) := by
  unfold decode_opcode
  rw [next_8_bits_of_lt h]

theorem decode_opcode_of_ge {vm : VM} (h : vm.program.length ≤ vm.pc) :
    vm.decode_opcode = (none, vm) := by
  unfold decode_opcode
  rw [next_8_bits_of_ge h]

/-! ### `decode_args` lemmas -/

/-- State evolution of `decode_args`: only the cursor moves, forward, and
never past the end of the buffer. -/
theorem decode_args_state (vm : VM) (op : Opcode) (a : OpcodeArity) :
    core_unchanged vm (vm.decode_args op a).2 ∧
    vm.pc ≤ (vm.decode_args op a).2.pc ∧
    (vm.decode_args op a).2.pc ≤ max vm.pc vm.program.length ∧
    ∀ instr, (vm.decode_args op a).1 = Except.ok instr → instr.opcode = op := by
  unfold decode_args
  split
  -- no-argument arm
  · exact ⟨core_unchanged_refl vm, Nat.le_refl _, Nat.le_max_left _ _,
      fun instr hok => by cases hok; rfl⟩
  -- one-read arms
  case _ =>
    rcases h1 : vm.next_8_bits with ⟨r1, vm1⟩
    obtain ⟨hc1, hle1, hbd1⟩ := next_8_bits_state h1
    rcases r1 with _ | x <;> simp only [h1] <;>
      refine ⟨hc1, hle1, hbd1, fun instr hok => ?_⟩ <;>
      first
        | (cases hok; rfl)
        | simp [decode_error] at hok
  case _ =>
    rcases h1 : vm.next_16_bits with ⟨r1, vm1⟩
    obtain ⟨hc1, hle1, hbd1⟩ := next_16_bits_state h1
    rcases r1 with _ | x <;> simp only [h1] <;>
      refine ⟨hc1, hle1, hbd1, fun instr hok => ?_⟩ <;>
      first
        | (cases hok; rfl)
        | simp [decode_error] at hok
  case _ =>
    rcases h1 : vm.next_16_bits with ⟨r1, vm1⟩
    obtain ⟨hc1, hle1, hbd1⟩ := next_16_bits_state h1
    rcases r1 with _ | x <;> simp only [h1] <;>
      refine ⟨hc1, hle1, hbd1, fun instr hok => ?_⟩ <;>
      first
        | (cases hok; rfl)
        | simp [decode_error] at hok
  case _ =>
    rcases h1 : vm.next_24_bits with ⟨r1, vm1⟩
    obtain ⟨hc1, hle1, hbd1⟩ := next_24_bits_state h1
    rcases r1 with _ | x <;> simp only [h1] <;>
      refine ⟨hc1, hle1, hbd1, fun instr hok => ?_⟩ <;>
      first
        | (cases hok; rfl)
        | simp [decode_error] at hok
  -- two-read arms
  case _ =>
    rcases h1 : vm.next_8_bits with ⟨r1, vm1⟩
    obtain ⟨hc1, hle1, hbd1⟩ := next_8_bits_state h1
    rcases h2 : vm1.next_8_bits with ⟨r2, vm2⟩
    obtain ⟨hc2, hle2, hbd2⟩ := next_8_bits_state h2
    rw [hc1.1] at hbd2
    have := core_unchanged_trans hc1 hc2
    rcases r1 with _ | x <;> rcases r2 with _ | y <;> simp only [h1, h2] <;>
      refine ⟨this, Nat.le_trans hle1 hle2, by omega, fun instr hok => ?_⟩ <;>
      first
        | (cases hok; rfl)
        | simp [decode_error] at hok
  case _ =>
    rcases h1 : vm.next_8_bits with ⟨r1, vm1⟩
    obtain ⟨hc1, hle1, hbd1⟩ := next_8_bits_state h1
    rcases h2 : vm1.next_8_bits with ⟨r2, vm2⟩
    obtain ⟨hc2, hle2, hbd2⟩ := next_8_bits_state h2
    rw [hc1.1] at hbd2
    have := core_unchanged_trans hc1 hc2
    rcases r1 with _ | x <;> rcases r2 with _ | y <;> simp only [h1, h2] <;>
      refine ⟨this, Nat.le_trans hle1 hle2, by omega, fun instr hok => ?_⟩ <;>
      first
        | (cases hok; rfl)
        | simp [decode_error] at hok
  case _ =>
    rcases h1 : vm.next_8_bits with ⟨r1, vm1⟩
    obtain ⟨hc1, hle1, hbd1⟩ := next_8_bits_state h1
    rcases h2 : vm1.next_16_bits with ⟨r2, vm2⟩
    obtain ⟨hc2, hle2, hbd2⟩ := next_16_bits_state h2
    rw [hc1.1] at hbd2
    have := core_unchanged_trans hc1 hc2
    rcases r1 with _ | x <;> rcases r2 with _ | y <;> simp only [h1, h2] <;>
      refine ⟨this, Nat.le_trans hle1 hle2, by omega, fun instr hok => ?_⟩ <;>
      first
        | (cases hok; rfl)
        | simp [decode_error] at hok
  case _ =>
    rcases h1 : vm.next_8_bits with ⟨r1, vm1⟩
    obtain ⟨hc1, hle1, hbd1⟩ := next_8_bits_state h1
    rcases h2 : vm1.next_16_bits with ⟨r2, vm2⟩
    obtain ⟨hc2, hle2, hbd2⟩ := next_16_bits_state h2
    rw [hc1.1] at hbd2
    have := core_unchanged_trans hc1 hc2
    rcases r1 with _ | x <;> rcases r2 with _ | y <;> simp only [h1, h2] <;>
      refine ⟨this, Nat.le_trans hle1 hle2, by omega, fun instr hok => ?_⟩ <;>
      first
        | (cases hok; rfl)
        | simp [decode_error] at hok
  case _ =>
    rcases h1 : vm.next_16_bits with ⟨r1, vm1⟩
    obtain ⟨hc1, hle1, hbd1⟩ := next_16_bits_state h1
    rcases h2 : vm1.next_16_bits with ⟨r2, vm2⟩
    obtain ⟨hc2, hle2, hbd2⟩ := next_16_bits_state h2
    rw [hc1.1] at hbd2
    have := core_unchanged_trans hc1 hc2
    rcases r1 with _ | x <;> rcases r2 with _ | y <;> simp only [h1, h2] <;>
      refine ⟨this, Nat.le_trans hle1 hle2, by omega, fun instr hok => ?_⟩ <;>
      first
        | (cases hok; rfl)
        | simp [decode_error] at hok
  -- three-read arm
  case _ =>
    rcases h1 : vm.next_8_bits with ⟨r1, vm1⟩
    obtain ⟨hc1, hle1, hbd1⟩ := next_8_bits_state h1
    rcases h2 : vm1.next_8_bits with ⟨r2, vm2⟩
    obtain ⟨hc2, hle2, hbd2⟩ := next_8_bits_state h2
    rcases h3 : vm2.next_8_bits with ⟨r3, vm3⟩
    obtain ⟨hc3, hle3, hbd3⟩ := next_8_bits_state h3
    rw [hc1.1] at hbd2
    rw [hc2.1, hc1.1] at hbd3
    have := core_unchanged_trans (core_unchanged_trans hc1 hc2) hc3
    rcases r1 with _ | x <;> rcases r2 with _ | y <;> rcases r3 with _ | z <;>
        simp only [h1, h2, h3] <;>
      refine ⟨this, Nat.le_trans hle1 (Nat.le_trans hle2 hle3), by omega,
        fun instr hok => ?_⟩ <;>
      first
        | (cases hok; rfl)
        | simp [decode_error] at hok
  -- catch-all arm
  case _ =>
    exact ⟨core_unchanged_refl vm, Nat.le_refl _, Nat.le_max_left _ _,
      fun instr hok => by simp at hok⟩

/-- Totality of `decode_args` over well-lengthed buffers: if the resolved
arity is matched by one of the argument-variant arms and enough bytes
remain, the reads succeed and an instruction is produced. -/
theorem decode_args_total {a : OpcodeArity}
    (hs : args_variant_supported a = true) (vm : VM) (op : Opcode)
    (hb : vm.pc + bytes_needed a ≤ vm.program.length) :
    ∃ instr vm', vm.decode_args op a = (.ok instr, vm') := by
  unfold args_variant_supported at hs
  split at hs
  -- argc 0
  · exact ⟨_, _, rfl⟩
  -- (1, u8)
  · have e1 := @next_8_bits_of_lt vm (by simp only [bytes_needed] at hb; omega)
    simp only [decode_args, e1]
    exact ⟨_, _, rfl⟩
  -- (1, u16)
  · have e1 := @next_16_bits_of_lt vm (by simp only [bytes_needed] at hb; omega)
    simp only [decode_args, e1]
    exact ⟨_, _, rfl⟩
  -- (1, i16)
  · have e1 := @next_16_bits_of_lt vm (by simp only [bytes_needed] at hb; omega)
    simp only [decode_args, e1]
    exact ⟨_, _, rfl⟩
  -- (1, u24)
  · have e1 := @next_24_bits_of_lt vm (by simp only [bytes_needed] at hb; omega)
    simp only [decode_args, e1]
    exact ⟨_, _, rfl⟩
  -- (2, u8, u8)
  · have e1 := @next_8_bits_of_lt vm (by simp only [bytes_needed] at hb; omega)
    have e2 := @next_8_bits_of_lt { vm with pc := vm.pc + 1 }
      (by simp only [bytes_needed] at hb; simp; omega)
    simp only [decode_args, e1, e2]
    exact ⟨_, _, rfl⟩
  -- (2, u8, i8)
  · have e1 := @next_8_bits_of_lt vm (by simp only [bytes_needed] at hb; omega)
    have e2 := @next_8_bits_of_lt { vm with pc := vm.pc + 1 }
      (by simp only [bytes_needed] at hb; simp; omega)
    simp only [decode_args, e1, e2]
    exact ⟨_, _, rfl⟩
  -- (2, u8, u16)
  · have e1 := @next_8_bits_of_lt vm (by simp only [bytes_needed] at hb; omega)
    have e2 := @next_16_bits_of_lt { vm with pc := vm.pc + 1 }
      (by simp only [bytes_needed] at hb; simp; omega)
    simp only [decode_args, e1, e2]
    exact ⟨_, _, rfl⟩
  -- (2, u8, i16)
  · have e1 := @next_8_bits_of_lt vm (by simp only [bytes_needed] at hb; omega)
    have e2 := @next_16_bits_of_lt { vm with pc := vm.pc + 1 }
      (by simp only [bytes_needed] at hb; simp; omega)
    simp only [decode_args, e1, e2]
    exact ⟨_, _, rfl⟩
  -- (2, u16, u16)
  · have e1 := @next_16_bits_of_lt vm (by simp only [bytes_needed] at hb; omega)
    have e2 := @next_16_bits_of_lt { vm with pc := vm.pc + 2 }
      (by simp only [bytes_needed] at hb; simp; omega)
    simp only [decode_args, e1, e2]
    exact ⟨_, _, rfl⟩
  -- (3, u8, u8, u8)
  · have e1 := @next_8_bits_of_lt vm (by simp only [bytes_needed] at hb; omega)
    have e2 := @next_8_bits_of_lt { vm with pc := vm.pc + 1 }
      (by simp only [bytes_needed] at hb; simp; omega)
    have e3 := @next_8_bits_of_lt { vm with pc := vm.pc + 1 + 1 }
      (by simp only [bytes_needed] at hb; simp; omega)
    simp only [decode_args, e1, e2, e3]
    exact ⟨_, _, rfl⟩
  -- catch-all: contradiction with hs
  · simp at hs

/-- Truncation behaviour of `decode_args`: a supported arity decoded with
fewer remaining bytes than it needs fails with the `decode_error` message
carrying the opcode and its argument count. -/
theorem decode_args_truncated {a : OpcodeArity}
    (hs : args_variant_supported a = true) (vm : VM) (op : Opcode)
    (hins : vm.program.length - vm.pc < bytes_needed a) :
    (vm.decode_args op a).1 = .error (.truncated op a.argc) := by
  unfold args_variant_supported at hs
  split at hs
  -- argc 0 needs no bytes: the hypothesis is impossible
  · simp [bytes_needed] at hins
  -- (1, u8)
  · have e1 := @next_8_bits_of_ge vm (by simp [bytes_needed] at hins; omega)
    simp only [decode_args, e1, decode_error]
  -- (1, u16)
  · have e1 := @next_16_bits_of_ge vm (by simp [bytes_needed] at hins; omega)
    simp only [decode_args, e1, decode_error]
  -- (1, i16)
  · have e1 := @next_16_bits_of_ge vm (by simp [bytes_needed] at hins; omega)
    simp only [decode_args, e1, decode_error]
  -- (1, u24)
  · have e1 := @next_24_bits_of_ge vm (by simp [bytes_needed] at hins; omega)
    simp only [decode_args, e1, decode_error]
  -- (2, u8, u8)
  · simp only [bytes_needed] at hins
    rcases Nat.lt_or_ge vm.pc vm.program.length with h1 | h1
    · have e1 := next_8_bits_of_lt h1
      have e2 := @next_8_bits_of_ge { vm with pc := vm.pc + 1 }
        (by simp; omega)
      simp only [decode_args, e1, e2, decode_error]
    · have e1 := next_8_bits_of_ge h1
      have e2 := @next_8_bits_of_ge vm h1
      simp only [decode_args, e1, e2, decode_error]
  -- (2, u8, i8)
  · simp only [bytes_needed] at hins
    rcases Nat.lt_or_ge vm.pc vm.program.length with h1 | h1
    · have e1 := next_8_bits_of_lt h1
      have e2 := @next_8_bits_of_ge { vm with pc := vm.pc + 1 }
        (by simp; omega)
      simp only [decode_args, e1, e2, decode_error]
    · have e1 := next_8_bits_of_ge h1
      have e2 := @next_8_bits_of_ge vm h1
      simp only [decode_args, e1, e2, decode_error]
  -- (2, u8, u16)
  · simp only [bytes_needed] at hins
    rcases Nat.lt_or_ge vm.pc vm.program.length with h1 | h1
    · have e1 := next_8_bits_of_lt h1
      have e2 := @next_16_bits_of_ge { vm with pc := vm.pc + 1 }
        (by simp; omega)
      simp only [decode_args, e1, e2, decode_error]
    · have e1 := next_8_bits_of_ge h1
      have e2 := @next_16_bits_of_ge vm (by omega)
      simp only [decode_args, e1, e2, decode_error]
  -- (2, u8, i16)
  · simp only [bytes_needed] at hins
    rcases Nat.lt_or_ge vm.pc vm.program.length with h1 | h1
    · have e1 := next_8_bits_of_lt h1
      have e2 := @next_16_bits_of_ge { vm with pc := vm.pc + 1 }
        (by simp; omega)
      simp only [decode_args, e1, e2, decode_error]
    · have e1 := next_8_bits_of_ge h1
      have e2 := @next_16_bits_of_ge vm (by omega)
      simp only [decode_args, e1, e2, decode_error]
  -- (2, u16, u16)
  · simp only [bytes_needed] at hins
    rcases Nat.lt_or_ge (vm.pc + 1) vm.program.length with h1 | h1
    · have e1 := next_16_bits_of_lt h1
      have e2 := @next_16_bits_of_ge { vm with pc := vm.pc + 2 }
        (by simp; omega)
      simp only [decode_args, e1, e2, decode_error]
    · have e1 := next_16_bits_of_ge h1
      have e2 := @next_16_bits_of_ge vm h1
      simp only [decode_args, e1, e2, decode_error]
  -- (3, u8, u8, u8)
  · simp only [bytes_needed] at hins
    rcases Nat.lt_or_ge vm.pc vm.program.length with h1 | h1
    · rcases Nat.lt_or_ge (vm.pc + 1) vm.program.length with h2 | h2
      · have e1 := next_8_bits_of_lt h1
        have e2 := @next_8_bits_of_lt { vm with pc := vm.pc + 1 }
          (by simp; omega)
        have e3 := @next_8_bits_of_ge { vm with pc := vm.pc + 1 + 1 }
          (by simp; omega)
        simp only [decode_args, e1, e2, e3, decode_error]
      · have e1 := next_8_bits_of_lt h1
        have e2 := @next_8_bits_of_ge { vm with pc := vm.pc + 1 }
          (by simp; omega)
        simp only [decode_args, e1, e2, decode_error]
    · have e1 := next_8_bits_of_ge h1
      simp only [decode_args, e1, decode_error]
  -- catch-all: contradiction with hs
  · simp at hs

/-! ### `decode_instruction` lemmas -/

/-- `apply_ext` with no remembered extension modifier is the identity. -/
theorem apply_ext_none (a : OpcodeArity) : apply_ext none a = a := rfl

/-- State evolution of `decode_instruction`: only the cursor moves, it
never decreases, it never passes the end of the buffer, and a decode that
starts before end-of-buffer consumes at least the opcode byte. -/
theorem decode_instruction_state (vm : VM) :
    core_unchanged vm (vm.decode_instruction).2 ∧
    vm.pc ≤ (vm.decode_instruction).2.pc ∧
    (vm.decode_instruction).2.pc ≤ max vm.pc vm.program.length ∧
    (vm.pc < vm.program.length → vm.pc + 1 ≤ (vm.decode_instruction).2.pc) := by
  unfold decode_instruction
  rcases Nat.lt_or_ge vm.pc vm.program.length with h1 | h1
  · rw [decode_opcode_of_lt h1]
    simp only []
    by_cases hext : (Opcode.fromU8 (vm.program.getD vm.pc 0)).is_ext
    · simp only [hext, if_true]
      rcases Nat.lt_or_ge (vm.pc + 1) vm.program.length with h2 | h2
      · rw [@decode_opcode_of_lt { vm with pc := vm.pc + 1 } (by simp; omega)]
        simp only [decode_with]
        obtain ⟨hc, hle, hbd, -⟩ :=
          decode_args_state { vm with pc := vm.pc + 1 + 1 } (Opcode.fromU8
            (vm.program.getD (vm.pc + 1) 0))
            (apply_ext (some (Opcode.fromU8 (vm.program.getD vm.pc 0)))
              (Opcode.fromU8 (vm.program.getD (vm.pc + 1) 0)).arity)
        refine ⟨?_, ?_, ?_, ?_⟩
        · exact core_unchanged_trans ⟨rfl, rfl, rfl, rfl⟩ hc
        · simp at hle ⊢; omega
        · obtain ⟨hp, -, -, -⟩ := hc
          simp at hp hbd ⊢
          omega
        · simp at hle ⊢; omega
      · rw [@decode_opcode_of_ge { vm with pc := vm.pc + 1 } (by simp; omega)]
        simp only [decode_with]
        exact ⟨⟨rfl, rfl, rfl, rfl⟩, by simp, by simp; omega, by simp⟩
    · simp only [hext, if_false]
      simp only [decode_with]
      obtain ⟨hc, hle, hbd, -⟩ :=
        decode_args_state { vm with pc := vm.pc + 1 }
          (Opcode.fromU8 (vm.program.getD vm.pc 0))
          (apply_ext none (Opcode.fromU8 (vm.program.getD vm.pc 0)).arity)
      refine ⟨?_, ?_, ?_, ?_⟩
      · exact core_unchanged_trans ⟨rfl, rfl, rfl, rfl⟩ hc
      · simp at hle ⊢; omega
      · obtain ⟨hp, -, -, -⟩ := hc
        simp at hp hbd ⊢
        omega
      · simp at hle ⊢; omega
  · rw [decode_opcode_of_ge h1]
    simp only [decode_with]
    exact ⟨core_unchanged_refl vm, Nat.le_refl _, Nat.le_max_left _ _, by omega⟩

/-- Where a successfully decoded instruction's opcode comes from: either
the byte at the cursor is not an extension modifier and it is that byte's
opcode, or the byte at the cursor is an extension modifier and it is the
opcode of the following byte. -/
theorem decode_instruction_ok_opcode {vm : VM} {instr : Instruction}
    {vm' : VM} (h : vm.decode_instruction = (.ok instr, vm')) :
    ((Opcode.fromU8 (vm.program.getD vm.pc 0)).is_ext = false ∧
      instr.opcode = Opcode.fromU8 (vm.program.getD vm.pc 0)) ∨
    ((Opcode.fromU8 (vm.program.getD vm.pc 0)).is_ext = true ∧
      instr.opcode = Opcode.fromU8 (vm.program.getD (vm.pc + 1) 0)) := by
  unfold decode_instruction at h
  rcases Nat.lt_or_ge vm.pc vm.program.length with h1 | h1
  · rw [decode_opcode_of_lt h1] at h
    simp only [] at h
    by_cases hext : (Opcode.fromU8 (vm.program.getD vm.pc 0)).is_ext
    · simp only [hext, if_true] at h
      rcases Nat.lt_or_ge (vm.pc + 1) vm.program.length with h2 | h2
      · rw [@decode_opcode_of_lt { vm with pc := vm.pc + 1 } (by simp; omega)]
          at h
        simp only [decode_with] at h
        obtain ⟨-, -, -, hop⟩ :=
          decode_args_state { vm with pc := vm.pc + 1 + 1 } (Opcode.fromU8
            (vm.program.getD (vm.pc + 1) 0))
            (apply_ext (some (Opcode.fromU8 (vm.program.getD vm.pc 0)))
              (Opcode.fromU8 (vm.program.getD (vm.pc + 1) 0)).arity)
        refine Or.inr ⟨hext, hop instr ?_⟩
        rw [h]
      · rw [@decode_opcode_of_ge { vm with pc := vm.pc + 1 } (by simp; omega)]
          at h
        simp [decode_with] at h
    · simp only [hext, Bool.false_eq_true, if_false] at h
      simp only [decode_with] at h
      obtain ⟨-, -, -, hop⟩ :=
        decode_args_state { vm with pc := vm.pc + 1 }
          (Opcode.fromU8 (vm.program.getD vm.pc 0))
          (apply_ext none (Opcode.fromU8 (vm.program.getD vm.pc 0)).arity)
      refine Or.inl ⟨by simpa using hext, hop instr ?_⟩
      rw [h]
  · rw [decode_opcode_of_ge h1] at h
    simp [decode_with] at h

/-! ### `execute_instruction` and `runFuel` lemmas -/

/-- A successfully returning `execute_instruction` never touches the
program buffer, never moves the cursor backwards or past the end of the
buffer, and consumes at least one byte when it starts before
end-of-buffer. -/
theorem execute_instruction_ok_state {vm vm' : VM} {b : Bool}
    (h : vm.execute_instruction = .ok (vm', b)) :
    vm'.program = vm.program ∧ vm.pc ≤ vm'.pc ∧
    vm'.pc ≤ max vm.pc vm.program.length ∧
    (vm.pc < vm.program.length → vm.pc + 1 ≤ vm'.pc) := by
  obtain ⟨⟨hprog, -, -, -⟩, hle, hbd, hcons⟩ := decode_instruction_state vm
  unfold execute_instruction at h
  rcases hd : vm.decode_instruction with ⟨r, vm₁⟩
  rw [hd] at h hprog hle hbd hcons
  rcases r with reason | instr
  · simp only [] at h
    injection h with h1
    injection h1 with h1 h2
    subst h1
    exact ⟨hprog, hle, hbd, hcons⟩
  · simp only [] at h
    split at h
    · injection h with h1
      injection h1 with h1 h2
      subst h1
      exact ⟨hprog, hle, hbd, hcons⟩
    · injection h with h1
      injection h1 with h1 h2
      subst h1
      exact ⟨hprog, hle, hbd, hcons⟩
    · injection h with h1
      injection h1 with h1 h2
      subst h1
      exact ⟨hprog, hle, hbd, hcons⟩
    · -- LOADI
      split at h
      · split at h
        · injection h with h1
          injection h1 with h1 h2
          subst h1
          exact ⟨hprog, hle, hbd, hcons⟩
        · simp at h
      · simp at h
    · simp at h

/-- `execute_instruction` returns `false` only because it recorded a
decode failure or executed the halt opcode. -/
theorem execute_instruction_false {vm vm' : VM}
    (h : vm.execute_instruction = .ok (vm', false)) :
    vm'.halted = true ∨ vm'.last_error ≠ none := by
  unfold execute_instruction at h
  rcases hd : vm.decode_instruction with ⟨r, vm₁⟩
  rw [hd] at h
  rcases r with reason | instr
  · simp only [] at h
    injection h with h1
    injection h1 with h1 h2
    subst h1
    simp
  · simp only [] at h
    split at h
    · simp at h
    · simp at h
    · injection h with h1
      injection h1 with h1 h2
      subst h1
      simp
    · split at h
      · split at h
        · simp at h
        · simp at h
      · simp at h
    · simp at h

/-- `runFuel` never touches the program buffer, never moves the cursor
backwards, and never moves it past the end of the buffer. -/
theorem runFuel_ok_state : ∀ (fuel : Nat) (vm vm' : VM),
    runFuel fuel vm = .ok vm' →
    vm'.program = vm.program ∧ vm.pc ≤ vm'.pc ∧
      vm'.pc ≤ max vm.pc vm.program.length := by
  intro fuel
  induction fuel with
  | zero =>
    intro vm vm' h
    injection h with h1
    subst h1
    exact ⟨rfl, Nat.le_refl _, Nat.le_max_left _ _⟩
  | succ n ih =>
    intro vm vm' h
    unfold runFuel at h
    split at h
    · rcases he : vm.execute_instruction with p | ⟨vm₁, b⟩
      · rw [he] at h
        simp at h
      · rw [he] at h
        obtain ⟨hprog, hle, hbd, -⟩ := execute_instruction_ok_state he
        simp only [] at h
        split at h
        · obtain ⟨hprog2, hle2, hbd2⟩ := ih vm₁ vm' h
          rw [hprog] at hprog2 hbd2
          exact ⟨hprog2, Nat.le_trans hle hle2, by omega⟩
        · injection h with h1
          subst h1
          exact ⟨hprog, hle, hbd⟩
    · injection h with h1
      subst h1
      exact ⟨rfl, Nat.le_refl _, Nat.le_max_left _ _⟩

/-- With fuel at least `program.length + 1 - pc`, a normally returning
`runFuel` whose final state has no recorded error and is not halted can
only have stopped because the cursor reached the end of the buffer: the
loop never silently gives up while it still has a clean running state. -/
theorem runFuel_clean_eof : ∀ (fuel : Nat) (vm vm' : VM),
    vm.program.length + 1 - vm.pc ≤ fuel →
    runFuel fuel vm = .ok vm' →
    vm'.last_error = none → vm'.halted = false →
    vm'.program.length ≤ vm'.pc := by
  intro fuel
  induction fuel with
  | zero =>
    intro vm vm' hfuel h hcl hha
    injection h with h1
    subst h1
    omega
  | succ n ih =>
    intro vm vm' hfuel h hcl hha
    unfold runFuel at h
    split at h
    · rename_i hcond
      simp only [eof, Bool.and_eq_true, decide_eq_true_eq,
        Bool.not_eq_eq_eq_not, Bool.not_true, decide_eq_false_iff_not,
        Nat.not_le] at hcond
      obtain ⟨⟨hce, hch⟩, hcp⟩ := hcond
      rcases he : vm.execute_instruction with p | ⟨vm₁, b⟩
      · rw [he] at h
        simp at h
      · rw [he] at h
        obtain ⟨hprog, -, -, hcons⟩ := execute_instruction_ok_state he
        cases b
        · simp only [Bool.false_eq_true, if_false] at h
          injection h with h1
          subst h1
          rcases execute_instruction_false he with hh | hh
          · rw [hh] at hha
            cases hha
          · exact absurd hcl hh
        · simp only [if_true] at h
          refine ih vm₁ vm' ?_ h hcl hha
          rw [hprog]
          have := hcons hcp
          omega
    · rename_i hcond
      injection h with h1
      subst h1
      simp only [eof, Bool.and_eq_true, decide_eq_true_eq,
        Bool.not_eq_eq_eq_not, Bool.not_true, decide_eq_false_iff_not,
        Nat.not_le, not_and, hcl, hha] at hcond
      simp at hcond
      omega

/-- The `while` loop of `run` exits immediately (returning the state
untouched) as soon as any conjunct of its condition fails: an error is
recorded, the machine is halted, or the cursor is at end-of-buffer. -/
theorem run_stopped {vm : VM}
    (h : vm.last_error ≠ none ∨ vm.halted = true ∨
         vm.program.length ≤ vm.pc) :
    vm.run = .ok vm := by
  unfold run
  simp only [runFuel]
  rw [if_neg]
  simp only [eof, Bool.and_eq_true, decide_eq_true_eq,
    Bool.not_eq_eq_eq_not, Bool.not_true, decide_eq_false_iff_not,
    Nat.not_le, not_and]
  intro hce hch
  rcases h with h | h | h
  · exact absurd hce.1 h
  · simp [h] at hce
  · omega

/-- Fuel adequacy: any two fuel values at least `program.length + 1 - pc`
give `runFuel` the same result, so `run` (which uses
`program.length + 1`) computes the limit of the source `while` loop. -/
theorem runFuel_adequate : ∀ (fuel fuel' : Nat) (vm : VM),
    vm.program.length + 1 - vm.pc ≤ fuel →
    vm.program.length + 1 - vm.pc ≤ fuel' →
    runFuel fuel vm = runFuel fuel' vm := by
  intro fuel
  induction fuel with
  | zero =>
    intro fuel' vm h h'
    cases fuel' with
    | zero => rfl
    | succ m =>
      simp only [runFuel]
      rw [if_neg]
      simp only [eof, Bool.and_eq_true, decide_eq_true_eq,
        Bool.not_eq_eq_eq_not, Bool.not_true, decide_eq_false_iff_not,
        Nat.not_le, not_and]
      intro hce hch
      omega
  | succ n ih =>
    intro fuel' vm h h'
    cases fuel' with
    | zero =>
      simp only [runFuel]
      rw [if_neg]
      simp only [eof, Bool.and_eq_true, decide_eq_true_eq,
        Bool.not_eq_eq_eq_not, Bool.not_true, decide_eq_false_iff_not,
        Nat.not_le, not_and]
      intro hce hch
      omega
    | succ m =>
      simp only [runFuel]
      by_cases hc :
          (decide (vm.last_error = none) && !vm.halted && !vm.eof) = true
      · rw [if_pos hc, if_pos hc]
        have hcp : vm.pc < vm.program.length := by
          simp only [eof, Bool.and_eq_true, decide_eq_true_eq,
            Bool.not_eq_eq_eq_not, Bool.not_true, decide_eq_false_iff_not,
            Nat.not_le] at hc
          exact hc.2
        rcases he : vm.execute_instruction with p | ⟨vm₁, b⟩
        · rfl
        · obtain ⟨hprog, -, -, hcons⟩ := execute_instruction_ok_state he
          have := hcons hcp
          cases b
          · rfl
          · simp only [if_true]
            refine ih m vm₁ ?_ ?_ <;> rw [hprog] <;> omega
      · rw [if_neg hc, if_neg hc]

/-- Every unwidened opcode arity is matched by an argument-variant arm of
the decoder (checked by enumerating all 92 + 2 opcodes). -/
theorem arity_variant_all (op : Opcode) :
    args_variant_supported op.arity = true := by
  cases op <;> rfl

end VM

/-! ## Claim theorems -/

open VM

/-- C1, counterexample: running the program `[255, 0, 0, 0]` does not end
in a recorded `Failed`-style status at all — `run` PANICS ("Unrecognized
opcode INVALID found. Terminating."), refuting the claim's "no panic or
crash" reading of the dispatch of byte 255. -/
theorem c1_unknown_opcode_counterexample :
    ({ VM.new with program := [255, 0, 0, 0] } : VM).run =
      .error (.unrecognizedOpcode .INVALID,
        { VM.new with program := [255, 0, 0, 0], pc := 1 }) := by
  decide

/-- C1 (amended): on `[255, 0, 0, 0]`, byte 255 (the out-of-range marker)
decodes successfully as a zero-argument `INVALID` instruction with the
cursor left at 1 and registers unchanged, but the subsequent dispatch step
PANICS with "Unrecognized opcode INVALID found. Terminating." instead of
recording an `UnsupportedOpcode` terminal status: at the moment of the
panic the cursor is 1, the registers are untouched and `last_error` is
still `none`. -/
theorem c1_unknown_opcode_amended :
    ({ VM.new with program := [255, 0, 0, 0] } : VM).decode_instruction =
      (.ok ⟨.INVALID, .None⟩,
       { VM.new with program := [255, 0, 0, 0], pc := 1 }) ∧
    ({ VM.new with program := [255, 0, 0, 0] } : VM).run =
      .error (.unrecognizedOpcode .INVALID,
        { VM.new with program := [255, 0, 0, 0], pc := 1 }) ∧
    ({ VM.new with program := [255, 0, 0, 0], pc := 1 } : VM).registers =
      VM.new.registers ∧
    ({ VM.new with program := [255, 0, 0, 0], pc := 1 } : VM).last_error =
      none := by
  decide

/-- C2, counterexample: decoding `[EXT1, MOVE, 0, 0, 0]` (bytes
`[88, 1, 0, 0, 0]`) fails with the "arity could not be determined" error
even though the 3 bytes demanded by the widened shape of `MOVE` (16-bit
first argument, 8-bit second) all remain in the buffer: a well-lengthed
extension-prefixed decode can fail, because the widened shape
`(16, 8)` has no argument-value variant. -/
theorem c2_decode_total_counterexample :
    Opcode.fromU8 88 = .EXT1 ∧ Opcode.fromU8 1 = .MOVE ∧
    bytes_needed (apply_ext (some .EXT1) Opcode.MOVE.arity) = 3 ∧
    ({ VM.new with program := [88, 1, 0, 0, 0] } : VM).decode_instruction =
      (.error (.arityUndetermined .MOVE),
       { VM.new with program := [88, 1, 0, 0, 0], pc := 2 }) := by
  decide

/-- C2 (amended): decoding fails only from insufficient trailing bytes or
from an extension-widened shape with no argument-value variant.  Every
unwidened shape has exactly one variant, so an unprefixed opcode followed
by enough bytes always decodes; an extension-prefixed opcode decodes
whenever its widened shape still has a variant and enough bytes follow
(some widened shapes, e.g. two 8-bit arguments with only the first
widened, have none and fail even when well-lengthed). -/
theorem c2_decode_total_amended (vm : VM)
    (hpc : vm.pc < vm.program.length) :
    (∀ op : Opcode, args_variant_supported op.arity = true) ∧
    ((Opcode.fromU8 (vm.program.getD vm.pc 0)).is_ext = false →
      vm.pc + 1 + bytes_needed (Opcode.fromU8 (vm.program.getD vm.pc 0)).arity
          ≤ vm.program.length →
      ∃ instr vm', vm.decode_instruction = (.ok instr, vm')) ∧
    ((Opcode.fromU8 (vm.program.getD vm.pc 0)).is_ext = true →
      vm.pc + 1 < vm.program.length →
      args_variant_supported
        (apply_ext (some (Opcode.fromU8 (vm.program.getD vm.pc 0)))
          (Opcode.fromU8 (vm.program.getD (vm.pc + 1) 0)).arity) = true →
      vm.pc + 2 + bytes_needed
        (apply_ext (some (Opcode.fromU8 (vm.program.getD vm.pc 0)))
          (Opcode.fromU8 (vm.program.getD (vm.pc + 1) 0)).arity)
          ≤ vm.program.length →
      ∃ instr vm', vm.decode_instruction = (.ok instr, vm')) := by
  refine ⟨arity_variant_all, ?_, ?_⟩
  · intro hext hb
    obtain ⟨instr, vmf, he⟩ :=
      @decode_args_total ((Opcode.fromU8 (vm.program.getD vm.pc 0)).arity)
        (arity_variant_all _) { vm with pc := vm.pc + 1 }
        (Opcode.fromU8 (vm.program.getD vm.pc 0)) (by exact hb)
    refine ⟨instr, vmf, ?_⟩
    unfold decode_instruction
    rw [decode_opcode_of_lt hpc]
    simp only [hext, Bool.false_eq_true, if_false, decode_with,
      apply_ext_none]
    exact he
  · intro hext hpc2 hsup hb
    obtain ⟨instr, vmf, he⟩ :=
      @decode_args_total
        (apply_ext (some (Opcode.fromU8 (vm.program.getD vm.pc 0)))
          (Opcode.fromU8 (vm.program.getD (vm.pc + 1) 0)).arity)
        hsup { vm with pc := vm.pc + 1 + 1 }
        (Opcode.fromU8 (vm.program.getD (vm.pc + 1) 0)) (by exact hb)
    refine ⟨instr, vmf, ?_⟩
    unfold decode_instruction
    rw [decode_opcode_of_lt hpc]
    simp only [hext, if_true]
    rw [@decode_opcode_of_lt { vm with pc := vm.pc + 1 } (by simp; omega)]
    simp only [decode_with]
    exact he

/-- C2 witness: the extension-prefixed load `[EXT2, LOADI, 0, 1, 244]`
decodes successfully via the amended totality theorem. -/
theorem c2_decode_total_witness :
    ∃ instr vm',
      ({ VM.new with program := [89, 3, 0, 1, 244] } : VM).decode_instruction
        = (.ok instr, vm') :=
  (c2_decode_total_amended { VM.new with program := [89, 3, 0, 1, 244] }
    (by decide)).2.2 (by decide) (by decide) (by decide) (by decide)

/-- C3, counterexample: `run_once` on an already-halted machine is not a
no-op: on `[NOP]` with `halted = true` it decodes and executes the `NOP`,
moving the cursor from 0 to 1. -/
theorem c3_terminal_counterexample :
    ({ VM.new with program := [0], halted := true } : VM).run_once =
      .ok ({ VM.new with program := [0], halted := true, pc := 1 }, true) ∧
    ({ VM.new with program := [0], halted := true, pc := 1 } : VM).pc ≠
      ({ VM.new with program := [0], halted := true } : VM).pc := by
  decide

/-- C3 (amended): `run()` is a no-op — returning the whole machine state
unchanged — whenever the status is terminal (halted, or an error is
recorded), and is therefore idempotent once terminal; `run_once()`,
by contrast, has no status guard and simply executes one instruction
(see the counterexample). -/
theorem c3_terminal_amended (vm : VM)
    (h : vm.halted = true ∨ vm.last_error ≠ none) :
    vm.run = .ok vm := by
  refine run_stopped ?_
  rcases h with h | h
  · exact Or.inr (Or.inl h)
  · exact Or.inl h

/-- C3 witness: `run` on a halted machine with a pending instruction
leaves the state untouched. -/
theorem c3_terminal_witness :
    ({ VM.new with program := [0], halted := true } : VM).run =
      .ok { VM.new with program := [0], halted := true } :=
  c3_terminal_amended _ (Or.inl rfl)

/-- C4, counterexample: running `[EXT2, LOADI, 32, 1, 244]` (register
index 32 = the register-file size) does not record a
`RegisterIndexOutOfRange` failure — it PANICS with the Rust bounds-check
message ("index out of bounds: the len is 32 but the index is 32"), and
`last_error` is still `none` at the moment of the panic. -/
theorem c4_register_range_counterexample :
    ({ VM.new with program := [89, 3, 32, 1, 244] } : VM).run =
      .error (.indexOutOfBounds 32 32,
        { VM.new with program := [89, 3, 32, 1, 244], pc := 5 }) ∧
    ({ VM.new with program := [89, 3, 32, 1, 244], pc := 5 } : VM).last_error
      = none := by
  decide

/-- C4 (amended): dispatching a LOADI whose decoded `U8I16` arguments
carry a register index at or beyond the register-file size makes the
machine PANIC with the bounds-check message (a crash, though a defined
one — not undefined behaviour), rather than recording any terminal
failure status: the recorded error is exactly what it was before the
instruction. -/
theorem c4_register_range_amended (vm vm₁ : VM) (a : Nat) (b : Int)
    (hdec : vm.decode_instruction = (.ok ⟨.LOADI, .U8I16 a b⟩, vm₁))
    (hge : vm₁.registers.length ≤ a) :
    vm.execute_instruction =
      .error (.indexOutOfBounds vm₁.registers.length a, vm₁) ∧
    vm₁.last_error = vm.last_error := by
  constructor
  · unfold execute_instruction
    rw [hdec]
    simp only []
    rw [if_neg (by omega)]
  · have he := (decode_instruction_state vm).1.2.2.2
    rw [hdec] at he
    exact he

/-- C4 witness: the amended theorem applied to the concrete program
`[EXT2, LOADI, 32, 1, 244]`. -/
theorem c4_register_range_witness :
    ({ VM.new with program := [89, 3, 32, 1, 244] } : VM).execute_instruction
      = .error (.indexOutOfBounds 32 32,
          { VM.new with program := [89, 3, 32, 1, 244], pc := 5 }) ∧
    ({ VM.new with program := [89, 3, 32, 1, 244], pc := 5 } : VM).last_error
      = ({ VM.new with program := [89, 3, 32, 1, 244] } : VM).last_error :=
  c4_register_range_amended { VM.new with program := [89, 3, 32, 1, 244] }
    { VM.new with program := [89, 3, 32, 1, 244], pc := 5 } 32 500
    (by decide) (by decide)

/-- C5, counterexample: `run()` on a zero-length program returns with the
machine state completely unchanged: no `EndOfProgram` (or any) failure is
recorded and the machine is not halted, refuting the claimed
`Failed(EndOfProgram)` terminal status. -/
theorem c5_empty_program_counterexample :
    VM.new.run = .ok VM.new ∧ VM.new.last_error = none ∧
      VM.new.halted = false := by
  decide

/-- C5 (amended): `run()` on a machine whose program buffer has length
zero terminates immediately without crashing, leaving the entire machine
state unchanged — in particular it records no failure at all (the
"no program" outcome is a silent return, not a `Failed` status). -/
theorem c5_empty_program_amended (vm : VM) (h : vm.program = []) :
    vm.run = .ok vm :=
  run_stopped (Or.inr (Or.inr (by rw [h]; simp)))

/-- C5 witness: the amended theorem applied to a freshly created machine. -/
theorem c5_empty_program_witness : VM.new.run = .ok VM.new :=
  c5_empty_program_amended VM.new rfl

/-- C6, counterexample: on the program `[EXT1, EXT1]` (bytes `[88, 88]`)
the decoder returns a standalone instruction whose opcode is `EXT1`, and
the dispatch step handles it — panicking with "Unrecognized opcode EXT1
found. Terminating." — so extension modifiers are not always consumed by
the decoder. -/
theorem c6_ext_dispatch_counterexample :
    ({ VM.new with program := [88, 88] } : VM).decode_instruction =
      (.ok ⟨.EXT1, .None⟩, { VM.new with program := [88, 88], pc := 2 }) ∧
    ({ VM.new with program := [88, 88] } : VM).execute_instruction =
      .error (.unrecognizedOpcode .EXT1,
        { VM.new with program := [88, 88], pc := 2 }) := by
  decide

/-- C6 (amended): a decoded standalone instruction can carry an extension
opcode (`EXT1`/`EXT2`/`EXT3`), but only when an extension opcode directly
follows another extension opcode in the byte stream: the byte at the
cursor and the byte after it both map to extension opcodes, the
instruction's opcode is the second one, and dispatching it panics as an
unrecognized opcode.  (With any non-extension byte after the modifier,
the modifier is consumed by the decoder, as the claim states.) -/
theorem c6_ext_dispatch_amended (vm vm' : VM) (instr : Instruction)
    (hdec : vm.decode_instruction = (.ok instr, vm'))
    (hext : instr.opcode.is_ext = true) :
    (Opcode.fromU8 (vm.program.getD vm.pc 0)).is_ext = true ∧
    (Opcode.fromU8 (vm.program.getD (vm.pc + 1) 0)).is_ext = true ∧
    instr.opcode = Opcode.fromU8 (vm.program.getD (vm.pc + 1) 0) ∧
    vm.execute_instruction =
      .error (.unrecognizedOpcode instr.opcode, vm') := by
  rcases decode_instruction_ok_opcode hdec with ⟨h1, h2⟩ | ⟨h1, h2⟩
  · exact absurd (h2 ▸ hext) (by rw [h1]; simp)
  · refine ⟨h1, h2 ▸ hext, h2, ?_⟩
    unfold execute_instruction
    rw [hdec]
    rcases instr with ⟨op, args⟩
    simp only [] at hext ⊢
    cases op <;> first | rfl | (simp [Opcode.is_ext] at hext)

/-- C6 witness: the amended theorem applied to the program `[88, 88]`. -/
theorem c6_ext_dispatch_witness :
    (Opcode.fromU8 (([88, 88] : List Nat).getD 0 0)).is_ext = true ∧
    (Opcode.fromU8 (([88, 88] : List Nat).getD (0 + 1) 0)).is_ext = true ∧
    (⟨.EXT1, .None⟩ : Instruction).opcode =
      Opcode.fromU8 (([88, 88] : List Nat).getD (0 + 1) 0) ∧
    ({ VM.new with program := [88, 88] } : VM).execute_instruction =
      .error (.unrecognizedOpcode (⟨.EXT1, .None⟩ : Instruction).opcode,
        { VM.new with program := [88, 88], pc := 2 }) :=
  c6_ext_dispatch_amended { VM.new with program := [88, 88] }
    { VM.new with program := [88, 88], pc := 2 } ⟨.EXT1, .None⟩
    (by decide) (by decide)

/-- C7: running `[EXT2, LOADI, 0x00, 0x01, 0xF4]` (bytes
`[89, 3, 0, 1, 244]`) on a freshly created machine sets register 0 to 500,
consumes exactly 5 bytes (cursor at end-of-buffer), records no failure,
and does not halt. -/
theorem c7_ext_widening_concrete :
    ({ VM.new with program := [89, 3, 0, 1, 244] } : VM).run =
      .ok (⟨(List.replicate 32 (0 : Int)).set 0 500, 5,
            [89, 3, 0, 1, 244], false, none⟩ : VM) ∧
    ((List.replicate 32 (0 : Int)).set 0 500).getD 0 0 = 500 ∧
    (⟨(List.replicate 32 (0 : Int)).set 0 500, 5,
      [89, 3, 0, 1, 244], false, none⟩ : VM).eof = true ∧
    (⟨(List.replicate 32 (0 : Int)).set 0 500, 5,
      [89, 3, 0, 1, 244], false, none⟩ : VM).last_error = none ∧
    (⟨(List.replicate 32 (0 : Int)).set 0 500, 5,
      [89, 3, 0, 1, 244], false, none⟩ : VM).halted = false := by
  decide

/-- C8, counterexample: decoding `[EXT1, MOVE]` (bytes `[88, 1]`), whose
widened shape needs 3 argument bytes while 0 remain, fails with the
"arity could not be determined" error — not with the truncation error
naming the opcode and the argument count — so the claim does not hold for
every (possibly widened) shape. -/
theorem c8_truncation_counterexample :
    bytes_needed (apply_ext (some .EXT1) Opcode.MOVE.arity) = 3 ∧
    ({ VM.new with program := [88, 1] } : VM).decode_instruction =
      (.error (.arityUndetermined .MOVE),
       { VM.new with program := [88, 1], pc := 2 }) := by
  decide

/-- C8 (amended): for every opcode whose resolved (possibly widened)
shape has an argument-value variant and requires N argument bytes,
decoding it with fewer than N bytes remaining fails with the truncation
error that names the opcode and its argument count (so no instruction is
returned), and the cursor neither retreats nor advances past the buffer
length.  (Widened shapes without a variant fail with the
arity-undetermined error instead — see the counterexample.) -/
theorem c8_truncation_amended (vm : VM) (hpc : vm.pc < vm.program.length) :
    ((Opcode.fromU8 (vm.program.getD vm.pc 0)).is_ext = false →
      vm.program.length - (vm.pc + 1) <
        bytes_needed (Opcode.fromU8 (vm.program.getD vm.pc 0)).arity →
      (vm.decode_instruction).1 =
        .error (.truncated (Opcode.fromU8 (vm.program.getD vm.pc 0))
          (Opcode.fromU8 (vm.program.getD vm.pc 0)).arity.argc)) ∧
    ((Opcode.fromU8 (vm.program.getD vm.pc 0)).is_ext = true →
      vm.pc + 1 < vm.program.length →
      args_variant_supported
        (apply_ext (some (Opcode.fromU8 (vm.program.getD vm.pc 0)))
          (Opcode.fromU8 (vm.program.getD (vm.pc + 1) 0)).arity) = true →
      vm.program.length - (vm.pc + 2) < bytes_needed
        (apply_ext (some (Opcode.fromU8 (vm.program.getD vm.pc 0)))
          (Opcode.fromU8 (vm.program.getD (vm.pc + 1) 0)).arity) →
      (vm.decode_instruction).1 =
        .error (.truncated (Opcode.fromU8 (vm.program.getD (vm.pc + 1) 0))
          (apply_ext (some (Opcode.fromU8 (vm.program.getD vm.pc 0)))
            (Opcode.fromU8 (vm.program.getD (vm.pc + 1) 0)).arity).argc)) ∧
    vm.pc ≤ (vm.decode_instruction).2.pc ∧
    (vm.decode_instruction).2.pc ≤ vm.program.length := by
  obtain ⟨-, hle, hbd, -⟩ := decode_instruction_state vm
  refine ⟨?_, ?_, hle, by omega⟩
  · intro hext hins
    have ht := decode_args_truncated (arity_variant_all
        (Opcode.fromU8 (vm.program.getD vm.pc 0)))
      { vm with pc := vm.pc + 1 } (Opcode.fromU8 (vm.program.getD vm.pc 0))
      (by exact hins)
    unfold decode_instruction
    rw [decode_opcode_of_lt hpc]
    simp only [hext, Bool.false_eq_true, if_false, decode_with,
      apply_ext_none]
    exact ht
  · intro hext hpc2 hsup hins
    have ht := decode_args_truncated hsup { vm with pc := vm.pc + 1 + 1 }
      (Opcode.fromU8 (vm.program.getD (vm.pc + 1) 0)) (by exact hins)
    unfold decode_instruction
    rw [decode_opcode_of_lt hpc]
    simp only [hext, if_true]
    rw [@decode_opcode_of_lt { vm with pc := vm.pc + 1 } (by simp; omega)]
    simp only [decode_with]
    exact ht

/-- C8 witness: decoding `[LOADI]` alone (2 argument bytes needed, 0
remaining) fails with the truncation error naming `LOADI` and 2, cursor
kept within the buffer. -/
theorem c8_truncation_witness :
    (({ VM.new with program := [3] } : VM).decode_instruction).1 =
      .error (.truncated (Opcode.fromU8 (([3] : List Nat).getD 0 0))
        (Opcode.fromU8 (([3] : List Nat).getD 0 0)).arity.argc) ∧
    (({ VM.new with program := [3] } : VM).decode_instruction).2.pc ≤ 1 :=
  ⟨(c8_truncation_amended { VM.new with program := [3] } (by decide)).1
      (by decide) (by decide),
   (c8_truncation_amended { VM.new with program := [3] } (by decide)).2.2.2⟩

/-- C9: across every public operation — `run_once` and `run` — the program
buffer is untouched, the program counter never decreases, and it never
exceeds the buffer length once within it; in particular any `run` from a
freshly created machine (cursor 0) ends with the cursor at most the
program length. -/
theorem c9_pc_monotone_bounded :
    (∀ (vm vm' : VM) (b : Bool), vm.run_once = .ok (vm', b) →
      vm'.program = vm.program ∧ vm.pc ≤ vm'.pc ∧
        (vm.pc ≤ vm.program.length → vm'.pc ≤ vm'.program.length)) ∧
    (∀ (vm vm' : VM), vm.run = .ok vm' →
      vm'.program = vm.program ∧ vm.pc ≤ vm'.pc ∧
        (vm.pc ≤ vm.program.length → vm'.pc ≤ vm'.program.length)) ∧
    (∀ (p : List Nat) (vm' : VM),
      ({ VM.new with program := p } : VM).run = .ok vm' →
        vm'.pc ≤ p.length) := by
  refine ⟨?_, ?_, ?_⟩
  · intro vm vm' b h
    unfold run_once at h
    obtain ⟨hp, hle, hbd, -⟩ := execute_instruction_ok_state h
    refine ⟨hp, hle, ?_⟩
    rw [hp]
    omega
  · intro vm vm' h
    unfold run at h
    obtain ⟨hp, hle, hbd⟩ := runFuel_ok_state _ vm vm' h
    refine ⟨hp, hle, ?_⟩
    rw [hp]
    omega
  · intro p vm' h
    unfold run at h
    obtain ⟨hp, hle, hbd⟩ := runFuel_ok_state _ _ vm' h
    have hbd2 : vm'.pc ≤ max 0 p.length := hbd
    omega

/-- C9 witness: running the one-byte program `[NOP]` from a fresh machine
ends with the cursor at 1 ≤ the program length 1. -/
theorem c9_pc_monotone_bounded_witness :
    ({ VM.new with program := [0], pc := 1 } : VM).pc ≤
      ([0] : List Nat).length :=
  c9_pc_monotone_bounded.2.2 [0] { VM.new with program := [0], pc := 1 }
    (by decide)

/-- C10: running off the end of the program at an instruction boundary is
the silent, non-error, non-halted outcome: (i) `run` invoked with the
cursor at end-of-buffer returns the state unchanged — it never records an
end-of-program (or any) failure there; and (ii) whenever `run` returns
normally with no recorded error and the machine not halted, the cursor is
at end-of-buffer (only a decode that begins before end-of-buffer can
record an end-of-program failure). -/
theorem c10_silent_eof (vm : VM) :
    (vm.program.length ≤ vm.pc → vm.run = .ok vm) ∧
    (∀ vm', vm.run = .ok vm' → vm'.last_error = none →
      vm'.halted = false → vm'.program.length ≤ vm'.pc) := by
  constructor
  · intro h
    exact run_stopped (Or.inr (Or.inr h))
  · intro vm' h hcl hha
    unfold run at h
    exact runFuel_clean_eof (vm.program.length + 1) vm vm' (by omega) h
      hcl hha

/-- C10 witness: a machine sitting at the end of a one-byte program with a
clean state returns from `run` unchanged. -/
theorem c10_silent_eof_witness :
    ({ VM.new with program := [0], pc := 1 } : VM).run =
      .ok { VM.new with program := [0], pc := 1 } :=
  (c10_silent_eof { VM.new with program := [0], pc := 1 }).1 (by decide)

end Iridium
